import Mathlib

/-!
# Verification of the retrieval-and-ranking subsystem of the edify chatbot backend

Shallow embedding of the retrieval, deduplication, context-assembly, follow-up
detection and confidence-estimation code of `backend/chatbot.py` and
`backend/vector_db.py`.  Python strings are modelled as lists of characters
(`Str`), Python floats as rationals (`ℚ`), Python dicts flowing through the
pipeline as structures whose fields are the keys the code reads or writes
(a key that a dict may lack is an `Option` field, `none` meaning "key absent",
so that `dict.get(key, default)` is `Option.getD`).  Python exceptions are
modelled with `Except`: a `try/except` block is a `match` on the body's
outcome.
-/

/-- Python strings, modelled as lists of characters. -/
abbrev Str := List Char

/-- `str.lower()`.  Lean's `Char.toLower` mirrors the ASCII case mapping. -/
def pyLower (s : Str) : Str := s.map Char.toLower

/-- `str.strip()`: drop whitespace from both ends. -/
def pyStrip (s : Str) : Str :=
  ((s.dropWhile Char.isWhitespace).reverse.dropWhile Char.isWhitespace).reverse

/-- `str.split()` with no argument: split on whitespace runs, discarding
empty pieces. -/
def pyWords (s : Str) : List Str :=
  (s.splitOnP Char.isWhitespace).filter (fun w => w ≠ [])

/-- `sep.join(parts)`. -/
def pyJoin (sep : Str) : List Str → Str
  | [] => []
  | [x] => x
  | x :: xs => x ++ sep ++ pyJoin sep xs

/-- `sub in s` for Python strings (substring containment): `sub` is a prefix
of some suffix of `s`. -/
def pyContains (s sub : Str) : Bool :=
  (List.range (s.length + 1)).any (fun i => sub.isPrefixOf (s.drop i))

/-! ## Deduplicator / diversity selector (`chatbot.py`, `process_query`,
lines 421-471)

A candidate as seen by the selector: the selector reads `chunk.get('id', '')`,
`chunk.get('metadata', {}).get('filename', 'unknown')` and
`chunk.get('score', 0)`; the three fields below hold exactly those three
values. -/

structure Cand where
  id : Str
  filename : Str
  score : ℚ
deriving DecidableEq

/-- Insert into a list sorted by descending `score`, before the first element
of smaller-or-equal score: together with `sortByScoreDesc` this is the stable
descending sort `sorted(pool, key=lambda x: x.get('score', 0), reverse=True)`. -/
def insertScoreDesc (c : Cand) : List Cand → List Cand
  | [] => [c]
  | d :: ds => if d.score ≤ c.score then c :: d :: ds else d :: insertScoreDesc c ds

/-- Stable sort by descending score (earlier input elements inserted last, each
placed before every equal-scored element already present). -/
def sortByScoreDesc : List Cand → List Cand
  | [] => []
  | c :: cs => insertScoreDesc c (sortByScoreDesc cs)

/-- First pass of the standard-mode selector (lines 442-455): walk the sorted
candidates, accept a candidate only if its `id` and its `filename` are both
unseen, append it, and break once the accepted count reaches the cap (the
Python code appends first and then checks `len(relevant_chunks) >= cap`).
`seenIds`/`seenFiles` model the `seen_ids` and `file_sources` sets, `k` the
number of accepted candidates so far. -/
def pass1 (cap : ℕ) : List Cand → List Str → List Str → ℕ → List Cand
  | [], _, _, _ => []
  | c :: rest, seenIds, seenFiles, k =>
    if c.id ∉ seenIds ∧ c.filename ∉ seenFiles then
      if cap ≤ k + 1 then [c]
      else c :: pass1 cap rest (c.id :: seenIds) (c.filename :: seenFiles) (k + 1)
    else pass1 cap rest seenIds seenFiles k

/-- Second pass (lines 457-471): walk the sorted candidates again, accept by
`id` uniqueness alone, decrement `remaining_slots` after each accept and break
once it reaches zero.  Only entered with `r > 0`. -/
def pass2 (r : ℕ) : List Cand → List Str → List Cand
  | [], _ => []
  | c :: rest, seenIds =>
    if c.id ∉ seenIds then
      if r ≤ 1 then [c]
      else c :: pass2 (r - 1) rest (c.id :: seenIds)
    else pass2 r rest seenIds

/-- Standard-mode (non-admin) selection: pass 1, then pass 2 over the same
sorted pool if pass 1 under-filled.  Pass 2 starts from the `seen_ids` set
left by pass 1, which holds exactly the ids of the pass-1 output. -/
def standardSelect (cap : ℕ) (pool : List Cand) : List Cand :=
  if 0 < cap - (pass1 cap (sortByScoreDesc pool) [] [] 0).length then
    pass1 cap (sortByScoreDesc pool) [] [] 0
      ++ pass2 (cap - (pass1 cap (sortByScoreDesc pool) [] [] 0).length)
          (sortByScoreDesc pool) ((pass1 cap (sortByScoreDesc pool) [] [] 0).map Cand.id)
  else pass1 cap (sortByScoreDesc pool) [] [] 0

/-- Admin branch (lines 427-440): every chunk of the sorted pool is appended
unconditionally (`seen_ids` is tracked only to log duplicate warnings). -/
def adminSelect (pool : List Cand) : List Cand := sortByScoreDesc pool

/-- The deduplication step of `process_query`: admin role bypasses
deduplication entirely, any other role gets the two-pass diversity
selection. -/
def processSelect (role : Str) (cap : ℕ) (pool : List Cand) : List Cand :=
  if role = ("admin").data then adminSelect pool else standardSelect cap pool

/-! ## Context assembler (`chatbot.py`, `_optimize_context_for_llm` and
`_sort_chunks_for_context`, lines 1614-1669)

A chunk as read by the assembler: `chunk.get('text', '')`,
`chunk.get('metadata', {}).get('filename', 'unknown')` and
`chunk.get('metadata', {}).get('chunk_index', 0)`. -/

structure CtxChunk where
  text : Str
  filename : Str
  chunkIndex : ℤ
deriving DecidableEq

/-- Filenames in order of first appearance: the iteration order of the
`doc_groups` dict (Python dicts preserve insertion order).  The fuel
argument only bounds the recursion; every step removes at least the head,
so `l.length` fuel is enough. -/
def firstOccurrenceFiles (l : List CtxChunk) : List Str :=
  go l.length l
where
  go : ℕ → List CtxChunk → List Str
    | 0, _ => []
    | _ + 1, [] => []
    | fuel + 1, c :: rest =>
      c.filename :: go fuel (rest.filter (fun d => d.filename ≠ c.filename))

/-- Insert into a list sorted by ascending `chunkIndex`, before the first
element of greater-or-equal index: with `sortByIdxAsc` this is the stable
ascending `group_chunks.sort(key=lambda x: ...get('chunk_index', 0))`. -/
def insertIdxAsc (c : CtxChunk) : List CtxChunk → List CtxChunk
  | [] => [c]
  | d :: ds => if c.chunkIndex ≤ d.chunkIndex then c :: d :: ds else d :: insertIdxAsc c ds

/-- Stable sort by ascending chunk index. -/
def sortByIdxAsc : List CtxChunk → List CtxChunk
  | [] => []
  | c :: cs => insertIdxAsc c (sortByIdxAsc cs)

/-- `_sort_chunks_for_context`: group chunks by source filename (groups in
first-appearance order), sort each group by `chunk_index`, concatenate the
groups. -/
def sortChunksForContext (chunks : List CtxChunk) : List CtxChunk :=
  ((firstOccurrenceFiles chunks).map
    (fun f => sortByIdxAsc (chunks.filter (fun c => c.filename = f)))).flatten

/-- The hard-coded character budget `max_context_for_comprehensive` of
`_optimize_context_for_llm`. -/
def maxContextChars : ℕ := 12000

/-- The chunk-selection loop of `_optimize_context_for_llm`: walk the sorted
chunks keeping a running total `cur` of the raw text lengths counted so far;
before appending a chunk, break if `cur + len(text) > 12000` and at least one
chunk has already been appended (`started`, i.e. `context_parts` nonempty).
Returns the list of chunks appended; `context_parts` is exactly
`(pickChunks ...).map fmtChunk`. -/
def pickChunks (started : Bool) (cur : ℕ) : List CtxChunk → List CtxChunk
  | [] => []
  | c :: rest =>
    if maxContextChars < cur + c.text.length ∧ started = true then []
    else c :: pickChunks true (cur + c.text.length) rest

/-- The chunks included in the assembled context. -/
def includedChunks (chunks : List CtxChunk) : List CtxChunk :=
  pickChunks false 0 (sortChunksForContext chunks)

/-- The per-chunk formatting
`f"Source: {source_file}\\n{chunk_text}\\n"`: note that the Python source
spells the separator as the two-character sequence backslash-`n` (an escaped
backslash inside a non-raw literal), which the Lean literal reproduces. -/
def fmtChunk (c : CtxChunk) : Str :=
  ("Source: ").data ++ c.filename ++ ("\\n").data ++ c.text ++ ("\\n").data

/-- `_optimize_context_for_llm`: the assembled context string,
`"\\n".join(context_parts)`. -/
def optimizeContextForLLM (chunks : List CtxChunk) : Str :=
  pyJoin ("\\n").data ((includedChunks chunks).map fmtChunk)

/-! ## Follow-up detector (`chatbot.py`, `_detect_follow_up_from_messages`
and `_identify_query_focus_dynamic`) -/

/-- A conversation message `{role, content}` (content modelled as a string;
the list-of-blocks content format accepted by the Python code is not
exercised by any claim). -/
structure Message where
  role : Str
  content : Str
deriving DecidableEq

/-- The dynamic decision threshold of `_detect_follow_up_from_messages`
(lines 1045-1048): `0.25 - min(0.15, len(messages) * 0.02)`. -/
def followUpThreshold (messageCount : ℕ) : ℚ :=
  1/4 - min (3/20) ((messageCount : ℚ) * (1/50))

/-- `_identify_query_focus_dynamic` (lines 1173-1194).  The word-count
branches are tested before the keyword branches; the substring tests run on
the raw (uncased) query, mirroring `any(w in query for w in [...])`. -/
def identifyQueryFocusDynamic (query _previousContent : Str) : Str :=
  let queryWords := pyWords (pyLower query)
  if queryWords.length ≤ 3 then ("clarification").data
  else if queryWords.length ≤ 6 then ("elaboration").data
  else if [("example").data, ("instance").data, ("case").data].any
      (fun w => pyContains query w) then ("examples").data
  else if [("different").data, ("other").data, ("alternative").data].any
      (fun w => pyContains query w) then ("alternatives").data
  else if [("detail").data, ("specific").data, ("explain").data].any
      (fun w => pyContains query w) then ("details").data
  else ("general_expansion").data

/-- The fields of the context dict returned on positive detection that the
claims concern (`query_focus` and `confidence`); the remaining entries
(`previous_topic`, `previous_keywords`, `previous_response`,
`previous_question`, `detection_reason`, `conversation_length`) are carried
for display and downstream query enhancement and are not modelled here. -/
structure FollowUpFocus where
  queryFocus : Str
  confidence : ℚ
deriving DecidableEq

/-- The reversed-scan of `_detect_follow_up_from_messages` (lines 1009-1015)
locating the most recent assistant message and the most recent user message
strictly before it.  `found` holds the assistant message once seen. -/
def scanPrevPair (found : Option Message) : List Message → Option Message × Option Message
  | [] => (found, none)
  | m :: rest =>
    if m.role = ("assistant").data ∧ found = none then scanPrevPair (some m) rest
    else if m.role = ("user").data ∧ found ≠ none then (found, some m)
    else scanPrevPair found rest

/-- `_detect_follow_up_from_messages` (lines 998-1072).  The semantic
continuity score computed by `_calculate_conversation_continuity` depends on
the external embedding model, so it enters as the parameter `continuity`. -/
def detectFollowUpFromMessages (query : Str) (messages : List Message)
    (continuity : ℚ) : Bool × Option FollowUpFocus :=
  if messages.length < 2 then (false, none)
  else
    match scanPrevPair none messages.reverse with
    | (some lastAssistant, some _lastUser) =>
      let previousText := lastAssistant.content
      if (pyStrip previousText).length < 20 ∨ (pyStrip query).length < 3 then (false, none)
      else if followUpThreshold messages.length ≤ continuity then
        (true, some { queryFocus := identifyQueryFocusDynamic query previousText,
                      confidence := continuity })
      else (false, none)
    | _ => (false, none)

/-! ## Confidence estimator (`chatbot.py`, `_calculate_confidence`,
lines 1880-1912)

The estimator reads `chunk.get('enhanced_relevance',
chunk.get('similarity_score', 0))`; a scored chunk is modelled by those two
fields (`enhancedRelevance = none` meaning the key is absent). -/

structure ScoredChunk where
  enhancedRelevance : Option ℚ
  similarityScore : ℚ
deriving DecidableEq

/-- `_calculate_confidence`: 0.3 on empty input; otherwise the
complexity-dependent step value of the mean relevance, +0.1 for five or more
chunks, clamped to [0.1, 1.0].  An unrecognized complexity string takes the
COMPLEX branch (the Python `else`). -/
def calculateConfidence (chunks : List ScoredChunk) (queryComplexity : Str) : ℚ :=
  if chunks = [] then 3/10
  else
    let relevanceScores := chunks.map (fun c => c.enhancedRelevance.getD c.similarityScore)
    if relevanceScores = [] then 3/10
    else
      let avgRelevance := relevanceScores.sum / relevanceScores.length
      let baseConfidence :=
        if queryComplexity = ("SIMPLE").data then
          if 7/10 < avgRelevance then 8/10 else 6/10
        else if queryComplexity = ("MODERATE").data then
          if 6/10 < avgRelevance then 7/10 else 5/10
        else
          if 5/10 < avgRelevance then 6/10 else 4/10
      let withBonus := if 5 ≤ relevanceScores.length then baseConfidence + 1/10
        else baseConfidence
      min (max withBonus (1/10)) 1

/-! ## Vector index search (`vector_db.py`, `search_similar_chunks` and its
helpers)

Metadata attached to an index match.  String-valued keys that may be absent
are modelled as possibly-empty strings (absence and the empty string are
equally falsy in every use the code makes of them); `chunk_index` and
`chunk_length` are the integer metadata written at ingestion. -/

structure Meta where
  text : Str
  content : Str
  documentContent : Str
  chunkText : Str
  chunkContent : Str
  preview : Str
  filename : Str
  contentType : Str
  chunkLength : ℤ
  chunkIndex : ℤ
  ocrUsed : Str
  sectionTitle : Str
  documentTitle : Str
deriving DecidableEq

/-- A raw index match `(score, metadata)` as returned by
`pinecone_index.query`. -/
structure PMatch where
  score : ℚ
  metadata : Meta
deriving DecidableEq

/-- A result dict as built by the per-strategy formatters and enriched along
the pipeline.  `chunkLenKey`, `eduTerms` and `contentQuality` are the keys
added by `_deduplicate_and_enhance_results`, `enhancedScore` the key added by
`_apply_educational_scoring`; `none` means the key is not present yet. -/
structure SRes where
  text : Str
  metadata : Meta
  similarityScore : ℚ
  rank : ℕ
  searchMethod : Str
  chunkLenKey : Option ℕ
  eduTerms : Option ℕ
  contentQuality : Option ℚ
  enhancedScore : Option ℚ
deriving DecidableEq

/-- The result dict rebuilt by `_enhance_search_results` (keys `text`,
`similarity_score`, `relevance_score`, `source_attribution`, `context`,
`metadata`, `rank`; the two display-only sub-dicts are derived from
`metadata` and carry no independent information). -/
structure FinalRes where
  text : Str
  similarityScore : ℚ
  relevanceScore : ℚ
  metadata : Meta
  rank : ℕ
deriving DecidableEq

/-- `_extract_text_from_metadata` (lines 795-805): try the text-bearing keys
in order; a truthy value is stripped and returned if its stripped length
exceeds 10; otherwise fall through, returning the empty string at the end. -/
def extractTextFromMetadata (m : Meta) : Str :=
  extractFirst [m.text, m.content, m.documentContent, m.chunkText, m.chunkContent, m.preview]
where
  extractFirst : List Str → Str
    | [] => []
    | v :: rest =>
      if v ≠ [] ∧ 10 < (pyStrip v).length then pyStrip v else extractFirst rest

/-- The match-formatting loop of `_search_pinecone_advanced`
(lines 628-646): keep a match only if its extracted text is truthy and its
stripped length exceeds 20. -/
def formatPineconeMatches (ms : List PMatch) : List SRes :=
  go 0 ms
where
  go (i : ℕ) : List PMatch → List SRes
    | [] => []
    | m :: rest =>
      let textContent := extractTextFromMetadata m.metadata
      if textContent ≠ [] ∧ 20 < (pyStrip textContent).length then
        { text := textContent, metadata := m.metadata, similarityScore := m.score,
          rank := i + 1, searchMethod := ("pinecone_advanced").data,
          chunkLenKey := none, eduTerms := none, contentQuality := none,
          enhancedScore := none } :: go (i + 1) rest
      else go (i + 1) rest

/-- `_search_pinecone_advanced` as a whole: the embedding plus index call is
the `indexCall` parameter; the surrounding `try/except` returns `[]` when it
fails. -/
def searchPineconeAdvanced (indexCall : Except Str (List PMatch)) : List SRes :=
  match indexCall with
  | Except.ok ms => formatPineconeMatches ms
  | Except.error _ => []

/-- The 21 domain terms of `_count_educational_terms` (lines 881-890). -/
def eduTermList : List Str :=
  [("assessment").data, ("evaluation").data, ("learning").data, ("teaching").data,
   ("education").data, ("student").data, ("curriculum").data, ("objective").data,
   ("strategy").data, ("skill").data, ("knowledge").data, ("performance").data,
   ("feedback").data, ("engagement").data, ("instruction").data, ("pedagogy").data,
   ("formative").data, ("summative").data, ("rubric").data, ("standard").data,
   ("outcome").data]

/-- `_count_educational_terms`. -/
def countEducationalTerms (text : Str) : ℕ :=
  (eduTermList.filter (fun t => pyContains (pyLower text) t)).length

/-- `_assess_content_quality` (lines 892-921).  `len(text.split('.'))` equals
one more than the number of dots. -/
def assessContentQuality (text : Str) (m : Meta) : ℚ :=
  let s1 : ℚ := 1/2
  let s2 := if 200 ≤ text.length ∧ text.length ≤ 1500 then s1 + 1/5
    else if text.length < 100 then s1 - 1/5 else s1
  let s3 := if 2 ≤ text.count ('.') + 1 then s2 + 1/10 else s2
  let eduCount := countEducationalTerms text
  let s4 := if 3 ≤ eduCount then s3 + 1/5 else if 1 ≤ eduCount then s3 + 1/10 else s3
  let s5 := if m.sectionTitle ≠ [] then s4 + 1/10 else s4
  let s6 := if m.documentTitle ≠ [] then s5 + 1/10 else s5
  max 0 (min 1 s6)

/-- `_deduplicate_and_enhance_results` (lines 807-828): keep a result only
if its fingerprint (first 100 characters, stripped and lowered) is nonempty,
longer than 20 characters and unseen; kept results gain the `chunk_length`,
`has_educational_terms` and `content_quality` keys. -/
def dedupEnhance (seenTexts : List Str) : List SRes → List SRes
  | [] => []
  | r :: rest =>
    let fingerprint := pyLower (pyStrip (r.text.take 100))
    if fingerprint ≠ [] ∧ fingerprint ∉ seenTexts ∧ 20 < fingerprint.length then
      { r with chunkLenKey := some r.text.length,
               eduTerms := some (countEducationalTerms r.text),
               contentQuality := some (assessContentQuality r.text r.metadata) }
        :: dedupEnhance (fingerprint :: seenTexts) rest
    else dedupEnhance seenTexts rest

/-- The 6 bonus terms of `_apply_educational_scoring` (line 842). -/
def scoringEduTerms : List Str :=
  [("learning").data, ("teaching").data, ("education").data, ("student").data,
   ("assessment").data, ("curriculum").data]

/-- `_apply_educational_scoring` (lines 830-879): annotate each result with
an `enhanced_score` clamped to [0, 1]; the list itself is unchanged. -/
def applyEducationalScoring (query : Str) (results : List SRes) : List SRes :=
  results.map (fun r =>
    let baseScore := r.similarityScore
    let text := pyLower r.text
    let educationalBonus : ℚ :=
      ((scoringEduTerms.filter (fun t => pyContains text t)).length : ℚ) * (1/50)
    let queryWords := (pyWords (pyLower query)).dedup
    let textWords := pyWords text
    let overlap := (queryWords.filter (fun w => w ∈ textWords)).length
    let overlapBonus : ℚ := min (1/10) ((overlap : ℚ) * (1/50))
    let qualityBonus := r.contentQuality.getD 0 * (1/20)
    let lengthPenalty : ℚ := if r.chunkLenKey.getD 0 < 100 then 1/20 else 0
    let namespaceBonus : ℚ :=
      if pyContains r.searchMethod (("cross_namespace").data) then 0 else 1/50
    let enhanced := baseScore + educationalBonus + overlapBonus + qualityBonus
      + namespaceBonus - lengthPenalty
    { r with enhancedScore := some (max 0 (min 1 enhanced)) })

/-- Stable descending sort by `x.get('enhanced_score', 0)`
(`sorted(..., reverse=True)` at line 494). -/
def insertEnhDesc (c : SRes) : List SRes → List SRes
  | [] => [c]
  | d :: ds =>
    if d.enhancedScore.getD 0 ≤ c.enhancedScore.getD 0 then c :: d :: ds
    else d :: insertEnhDesc c ds

/-- Stable sort by descending enhanced score. -/
def sortByEnhDesc : List SRes → List SRes
  | [] => []
  | c :: cs => insertEnhDesc c (sortByEnhDesc cs)

/-- `_calculate_relevance_score` (lines 1038-1066): similarity plus a
content-type bonus, minus length and OCR penalties, clamped to [0, 1].  The
length penalty reads the ingestion-time `chunk_length` metadata key. -/
def calculateRelevanceScore (r : SRes) : ℚ :=
  let baseScore := r.similarityScore
  let contentBonus : ℚ :=
    if r.metadata.contentType = ("conceptual").data
        ∨ r.metadata.contentType = ("procedural").data then 1/10 else 0
  let lengthPenalty : ℚ :=
    if r.metadata.chunkLength < 100 then 1/10
    else if 1500 < r.metadata.chunkLength then 1/20 else 0
  let ocrPenalty : ℚ := if r.metadata.ocrUsed = ("True").data then 1/20 else 0
  max 0 (min 1 (baseScore + contentBonus - lengthPenalty - ocrPenalty))

/-- `_enhance_search_results` (lines 994-1036): rebuild each result dict,
preserving `text`, `similarity_score`, `metadata` and `rank` and adding the
computed `relevance_score`. -/
def enhanceSearchResults (results : List SRes) : List FinalRes :=
  results.map (fun r =>
    { text := r.text, similarityScore := r.similarityScore,
      relevanceScore := calculateRelevanceScore r, metadata := r.metadata,
      rank := r.rank })

/-- The descending lexicographic key
`(x.get('relevance_score', 0), x.get('similarity_score', 0))` of
`_rerank_results`. -/
def rerankKeyLE (a b : FinalRes) : Prop :=
  a.relevanceScore < b.relevanceScore
    ∨ (a.relevanceScore = b.relevanceScore ∧ a.similarityScore ≤ b.similarityScore)

instance (a b : FinalRes) : Decidable (rerankKeyLE a b) := by
  unfold rerankKeyLE; infer_instance

/-- Stable insertion for the rerank sort. -/
def insertRerank (c : FinalRes) : List FinalRes → List FinalRes
  | [] => [c]
  | d :: ds => if rerankKeyLE d c then c :: d :: ds else d :: insertRerank c ds

/-- `_rerank_results` (lines 1068-1086): stable descending sort by
`(relevance_score, similarity_score)`, then renumber ranks from 1. -/
def rerankResults (results : List FinalRes) : List FinalRes :=
  renumber 0 (sortRerank results)
where
  sortRerank : List FinalRes → List FinalRes
    | [] => []
    | c :: cs => insertRerank c (sortRerank cs)
  renumber (i : ℕ) : List FinalRes → List FinalRes
    | [] => []
    | c :: cs => { c with rank := i + 1 } :: renumber (i + 1) cs

/-- The pure pipeline of `search_similar_chunks` (lines 445-511) given the
outputs of the four retrieval strategies (each strategy helper catches its
own failures and returns `[]`, so the strategy outputs are plain lists):
conditional accumulation, deduplication, educational scoring, sort and
truncation to `top_k`, enhancement, and optional reranking. -/
def searchSimilarChunksFrom (primary expanded cross fuzzy : List SRes)
    (topK : ℕ) (namespaceGiven reranking : Bool) (query : Str) : List FinalRes :=
  let all1 := primary
  let all2 := if (primary.length : ℚ) < (topK : ℚ) * (7/10) then all1 ++ expanded else all1
  let all3 := if namespaceGiven ∧ all2.length < topK then all2 ++ cross else all2
  let all4 := if (all3.length : ℚ) < (topK : ℚ) * (8/10) then all3 ++ fuzzy else all3
  let uniqueResults := dedupEnhance [] all4
  let scoredResults := applyEducationalScoring query uniqueResults
  let finalResults := (sortByEnhDesc scoredResults).take topK
  let enhancedResults := enhanceSearchResults finalResults
  if reranking ∧ 1 < enhancedResults.length then rerankResults enhancedResults
  else enhancedResults

/-- `search_similar_chunks` with its outer `try/except` (lines 513-515):
the four strategy outcomes enter as `Except` values, each strategy's own
`try/except` turning a failure into an empty contribution; the outer handler
returns `[]` if the body fails. -/
def searchSimilarChunksE (primaryCall : Except Str (List PMatch))
    (expandedCall crossCall fuzzyCall : Except Str (List SRes))
    (topK : ℕ) (namespaceGiven reranking : Bool) (query : Str) :
    Except Str (List FinalRes) :=
  let body : Except Str (List FinalRes) :=
    Except.ok (searchSimilarChunksFrom (searchPineconeAdvanced primaryCall)
      (catchStrategy expandedCall) (catchStrategy crossCall) (catchStrategy fuzzyCall)
      topK namespaceGiven reranking query)
  match body with
  | Except.ok r => Except.ok r
  | Except.error _ => Except.ok []
where
  catchStrategy : Except Str (List SRes) → List SRes
    | Except.ok l => l
    | Except.error _ => []

/-! ## Multi-strategy retrieval in the chatbot
(`chatbot.py`, `_retrieve_relevant_chunks`, lines 1384-1569) -/

/-- A candidate dict at the chatbot level: a `FinalRes` returned by
`VectorDB.search_similar_chunks` plus the keys the chatbot may add —
`search_strategy` (strategy tag, absent on primary results) and
`enhanced_relevance` (set by the content-filtering stage).  These dicts carry
no `content`, `id` or `score` keys, so `chunk.get('content', '')` is always
the empty string and `chunk.get('id', '')`/`chunk.get('score', 0)` always
yield their defaults downstream. -/
structure QChunk where
  result : FinalRes
  searchStrategy : Option Str
  enhancedRelevance : Option ℚ
deriving DecidableEq

/-- Lift an untouched search result into the candidate pool (no
`search_strategy` key). -/
def untagged (l : List FinalRes) : List QChunk :=
  l.map (fun r => { result := r, searchStrategy := none, enhancedRelevance := none })

/-- `chunk['search_strategy'] = tag` applied to a whole strategy output
before it is merged. -/
def tagWith (tag : Str) (l : List FinalRes) : List QChunk :=
  l.map (fun r => { result := r, searchStrategy := some tag, enhancedRelevance := none })

/-- The holiday trigger of strategy 2 (line 1456). -/
def holidayTrigger (query : Str) : Bool :=
  [("holiday").data, ("holidays").data, ("vacation").data, ("break").data,
   ("celebration").data, ("festival").data].any (fun w => pyContains (pyLower query) w)

/-- The form trigger of strategy 2 (line 1461). -/
def formTrigger (query : Str) : Bool :=
  [("form").data, ("slip").data, ("observation").data, ("report").data,
   ("signature").data, ("template").data].any (fun w => pyContains (pyLower query) w)

/-- The stop-word set of `_extract_core_keywords` (lines 1577-1582). -/
def coreStopWords : List Str :=
  [("what").data, ("is").data, ("are").data, ("the").data, ("and").data, ("or").data,
   ("but").data, ("in").data, ("on").data, ("at").data, ("to").data, ("for").data,
   ("of").data, ("with").data, ("by").data, ("from").data, ("how").data, ("does").data,
   ("do").data, ("can").data, ("will").data, ("would").data, ("tell").data, ("me").data,
   ("about").data, ("explain").data, ("describe").data, ("give").data,
   ("information").data, ("different").data, ("types").data, ("kind").data,
   ("kinds").data, ("type").data]

/-- One attempted match of the pattern in `re.findall(r'\\b\\w{3,}\\b', ...)`
at the head of the string.  The pattern is built from a raw string, so `\\b`
is an escaped backslash followed by a literal `b` and `w{3,}` is the literal
character `w` at least three times: the regex matches
backslash, `b`, backslash, three or more `w`s, backslash, `b`.  Returns the
matched text and the remaining input. -/
def matchLiteralPattern : Str → Option (Str × Str)
  | '\\' :: 'b' :: '\\' :: rest =>
    let run := rest.takeWhile (fun c => c = 'w')
    if 3 ≤ run.length then
      match rest.drop run.length with
      | '\\' :: 'b' :: tail =>
        some (['\\', 'b', '\\'] ++ run ++ ['\\', 'b'], tail)
      | _ => none
    else none
  | _ => none

/-- `re.findall` for that pattern: leftmost non-overlapping matches (the
fuel argument only bounds the scan; every step consumes at least one
character, so `s.length` fuel is enough). -/
def findallLiteral (s : Str) : List Str :=
  go s.length s
where
  go : ℕ → Str → List Str
    | 0, _ => []
    | _ + 1, [] => []
    | fuel + 1, c :: cs =>
      match matchLiteralPattern (c :: cs) with
      | some (m, tail) => m :: go fuel tail
      | none => go fuel cs

/-- `_extract_core_keywords` (lines 1571-1594): the doubled backslashes in
the pattern mean it matches only literal `\b\www\b` sequences, so on any
normal query this returns `[]` and the keyword fallback strategy never
fires. -/
def extractCoreKeywords (query : Str) : List Str :=
  let words := findallLiteral (pyLower query)
  let keywords := words.filter (fun w => w ∉ coreStopWords ∧ 3 < w.length)
  let educationalTerms : List Str :=
    [("assessment").data, ("formative").data, ("summative").data, ("evaluation").data,
     ("testing").data, ("grading").data, ("student").data, ("learning").data,
     ("teaching").data]
  let priorityKeywords := keywords.filter (fun kw => kw ∈ educationalTerms)
  let otherKeywords := keywords.filter (fun kw => kw ∉ educationalTerms)
  priorityKeywords ++ otherKeywords.take 3

/-- The query augmentation of the holiday-enhanced search (line 1457). -/
def holidayEnhancedQuery (query : Str) : Str :=
  query ++ (" holiday list academic calendar north campus south campus Independence Day Christmas Diwali festival celebration LOHRI BAISAKHI MAHAVEER").data

/-- The query augmentation of the form-enhanced search (line 1462). -/
def formEnhancedQuery (query : Str) : Str :=
  query ++ (" form template observation slip fields signature date name student class section undertaking").data

/-- The keyword-strategy query `" ".join(core_keywords) + " " + query`
(line 1482). -/
def keywordQuery (query : Str) : Str :=
  pyJoin ([' ']) (extractCoreKeywords query) ++ [' '] ++ query

/-- One `extend` of the merge:
`all_candidate_chunks.extend([c for c in tagged if c not in all_candidate_chunks])`
— the comprehension is evaluated against the pool before the extension. -/
def mergeStep (pool tagged : List QChunk) : List QChunk :=
  pool ++ tagged.filter (fun c => c ∉ pool)

/-- The candidate pool after the primary strategy. -/
def mergePool1 (primary : List FinalRes) : List QChunk := untagged primary

/-- The candidate pool after the (conditional) holiday-enhanced strategy,
whose results are first tagged `HOLIDAY`. -/
def mergePool2 (query : Str) (primary holidayRes : List FinalRes) : List QChunk :=
  if holidayTrigger query then
    mergeStep (mergePool1 primary) (tagWith (("HOLIDAY").data) holidayRes)
  else mergePool1 primary

/-- The candidate pool after the (conditional) form-enhanced strategy,
whose results are first tagged `FORM`. -/
def mergePool3 (query : Str) (primary holidayRes formRes : List FinalRes) : List QChunk :=
  if formTrigger query then
    mergeStep (mergePool2 query primary holidayRes) (tagWith (("FORM").data) formRes)
  else mergePool2 query primary holidayRes

/-- The merge step of `_retrieve_relevant_chunks` (lines 1440-1492): the
primary results, then each triggered enhanced search (results tagged with
their strategy), then the keyword strategy (fired only when
`_extract_core_keywords` is nonempty). -/
def mergeCandidates (query : Str)
    (primary holidayRes formRes keywordRes : List FinalRes) : List QChunk :=
  if extractCoreKeywords query ≠ [] then
    mergeStep (mergePool3 query primary holidayRes formRes)
      (tagWith (("KEYWORD").data) keywordRes)
  else mergePool3 query primary holidayRes formRes

/-- The holiday indicator phrases of the content-filtering stage
(lines 1508-1512). -/
def holidayIndicators : List Str :=
  [("academic holidays").data, ("holiday list").data, ("list of holidays").data,
   ("north campus").data, ("south campus").data, ("independence day").data,
   ("christmas").data, ("diwali").data, ("lohri").data, ("baisakhi").data,
   ("mahaveer jayanthi").data, ("varalakshmi vratham").data, ("ugadi").data,
   ("ganesh chaturthi").data]

/-- The form indicator phrases (lines 1524-1527). -/
def formIndicators : List Str :=
  [("observation slip").data, ("disciplinary action").data, ("class report").data,
   ("name of student").data, ("class & section").data, ("date of observation").data,
   ("signature").data, ("teacher signature").data]

/-- The per-chunk relevance score of the content-filtering stage
(lines 1497-1537).  `chunk.get('content', '')` is always empty for these
dicts, so `combined_text` is a space followed by the lowered text. -/
def chunkRelevanceScore (queryLower : Str) (c : QChunk) : ℚ :=
  let content : Str := []
  let text := pyLower c.result.text
  let combined := pyLower (content ++ [' '] ++ text)
  let base := c.result.similarityScore
  let afterCategory :=
    if [("holiday").data, ("holidays").data].any (fun w => pyContains queryLower w) then
      let hm := (holidayIndicators.filter (fun t => pyContains combined t)).length
      let s1 := if 0 < hm then base + 3/10 + (hm : ℚ) * (1/10) else base
      if pyContains combined (("north campus").data)
          ∨ pyContains combined (("south campus").data) then s1 + 2/5 else s1
    else if [("form").data, ("slip").data, ("observation").data].any
        (fun w => pyContains queryLower w) then
      let fm := (formIndicators.filter (fun t => pyContains combined t)).length
      if 0 < fm then base + 3/10 + (fm : ℚ) * (1/10) else base
    else base
  let queryWords := pyWords queryLower
  let keywordMatches := (queryWords.filter (fun w => pyContains combined w)).length
  let keywordRatio : ℚ :=
    if queryWords ≠ [] then (keywordMatches : ℚ) / (queryWords.length : ℚ) else 0
  afterCategory + keywordRatio * (1/5)

/-- The acceptance loop (lines 1539-1547): each candidate is annotated with
`enhanced_relevance` and accepted when the score reaches the adaptive
threshold — 0.15 while fewer than five chunks are accepted, 0.20 after. -/
def contentFilter (queryLower : Str) (accepted : ℕ) : List QChunk → List QChunk
  | [] => []
  | c :: rest =>
    let score := chunkRelevanceScore queryLower c
    let annotated := { c with enhancedRelevance := some score }
    let threshold : ℚ := if accepted < 5 then 3/20 else 1/5
    if threshold ≤ score then annotated :: contentFilter queryLower (accepted + 1) rest
    else contentFilter queryLower accepted rest

/-- Stable descending sort by `x.get('enhanced_relevance', 0)`
(line 1550). -/
def insertEnhRelDesc (c : QChunk) : List QChunk → List QChunk
  | [] => [c]
  | d :: ds =>
    if d.enhancedRelevance.getD 0 ≤ c.enhancedRelevance.getD 0 then c :: d :: ds
    else d :: insertEnhRelDesc c ds

/-- Stable sort by descending enhanced relevance. -/
def sortByEnhRelDesc : List QChunk → List QChunk
  | [] => []
  | c :: cs => insertEnhRelDesc c (sortByEnhRelDesc cs)

/-- The follow-up context dict as consumed by the query-enhancement step of
`_retrieve_relevant_chunks` (the fields it reads). -/
structure FollowUpCtx where
  previousTopic : Str
  previousKeywords : List Str
  confidence : ℚ
  queryFocus : Str
deriving DecidableEq

/-- The vague follow-up patterns (line 1393). -/
def vagueFollowUpPatterns : List Str :=
  [("tell me more").data, ("more details").data, ("give me more").data,
   ("more information").data, ("elaborate").data, ("expand on").data,
   ("continue").data]

/-- The query-enhancement step of `_retrieve_relevant_chunks`
(lines 1388-1424): for a contextual follow-up, prepend the previous topic
(vague follow-ups) or append up to two previous keywords. -/
def enhanceFollowUpQuery (query : Str) (isFollowUp : Bool)
    (ctx : Option FollowUpCtx) : Str :=
  match isFollowUp, ctx with
  | true, some fuCtx =>
    let isVague := vagueFollowUpPatterns.any (fun p => pyContains (pyLower query) p)
    let isContextual := isVague
      ∨ (7/10 ≤ fuCtx.confidence ∧ (pyWords query).length ≤ 6
          ∧ [("more").data, ("that").data, ("this").data, ("it").data,
             ("examples").data, ("about").data, ("what").data].any
              (fun w => pyContains (pyLower query) w))
    if isContextual then
      if isVague ∧ fuCtx.previousTopic ≠ [] then
        fuCtx.previousTopic ++ [' '] ++ query
      else if fuCtx.previousKeywords ≠ [] then
        query ++ [' '] ++ pyJoin ([' ']) (fuCtx.previousKeywords.take 2)
      else query
    else query
  | _, _ => query

/-- The complexity-dependent `(search_top_k, max_chunks)` pairs
(lines 1427-1435). -/
def complexityParams (complexity : Str) : ℕ × ℕ :=
  if complexity = ("SIMPLE").data then (15, 10)
  else if complexity = ("COMPLEX").data then (25, 15)
  else (20, 12)

/-- The body of `_retrieve_relevant_chunks` (lines 1386-1566): follow-up
query enhancement, the four-strategy merge (each strategy fetched only when
triggered), content filtering, sorting and truncation; each search call may
fail (the `search` collaborator returns an `Except`), and a failure aborts
the body. -/
def retrieveRelevantChunksBody (search : Str → ℕ → Except Str (List FinalRes))
    (query : Str) (isFollowUp : Bool) (ctx : Option FollowUpCtx)
    (complexity : Str) : Except Str (List QChunk) := do
  let q := enhanceFollowUpQuery query isFollowUp ctx
  let p := complexityParams complexity
  let primary ← search q p.1
  let holidayRes ← if holidayTrigger q then search (holidayEnhancedQuery q) p.1
    else pure []
  let formRes ← if formTrigger q then search (formEnhancedQuery q) p.1
    else pure []
  let keywordRes ← if extractCoreKeywords q ≠ [] then search (keywordQuery q) (p.1 / 2)
    else pure []
  let pool := mergeCandidates q primary holidayRes formRes keywordRes
  let relevantChunks := contentFilter (pyLower q) 0 pool
  pure ((sortByEnhRelDesc relevantChunks).take p.2)

/-- `_retrieve_relevant_chunks` with its surrounding `try/except`
(lines 1567-1569), which turns any failure into an empty result list. -/
def retrieveRelevantChunksE (search : Str → ℕ → Except Str (List FinalRes))
    (query : Str) (isFollowUp : Bool) (ctx : Option FollowUpCtx)
    (complexity : Str) : Except Str (List QChunk) :=
  match retrieveRelevantChunksBody search query isFollowUp ctx complexity with
  | Except.ok r => Except.ok r
  | Except.error _ => Except.ok []

/-! ## Theorems -/

/-- C5: for every `messageCount`, the follow-up decision threshold equals
`0.25 - min(0.15, messageCount * 0.02)`, and increasing `messageCount` never
increases the threshold. -/
theorem followUpThreshold_formula_and_monotone (m n : ℕ) (h : m ≤ n) :
    followUpThreshold m = (0.25 : ℚ) - min (0.15 : ℚ) ((m : ℚ) * (0.02 : ℚ))
      ∧ followUpThreshold n ≤ followUpThreshold m := by
  constructor
  · norm_num [followUpThreshold]
  · unfold followUpThreshold
    have hm : ((m : ℚ)) * (1/50) ≤ (n : ℚ) * (1/50) := by
      have : (m : ℚ) ≤ (n : ℚ) := by exact_mod_cast h
      linarith
    have hmin := min_le_min (le_refl (3/20 : ℚ)) hm
    linarith

/-- Witness for C5 at `messageCount` 2 and 10. -/
theorem followUpThreshold_formula_and_monotone_witness :
    2 ≤ 10
      ∧ (followUpThreshold 2 = (0.25 : ℚ) - min (0.15 : ℚ) ((2 : ℚ) * (0.02 : ℚ))
          ∧ followUpThreshold 10 ≤ followUpThreshold 2) :=
  ⟨by decide, followUpThreshold_formula_and_monotone 2 10 (by decide)⟩

/-- The step function of the confidence claim: the complexity-dependent base
confidence as a function of the mean relevance (spec-side rendering of the
claim, to be compared with `calculateConfidence`). -/
def confidenceStepSpec (complexity : Str) (mean : ℚ) : ℚ :=
  if complexity = ("SIMPLE").data then if 7/10 < mean then 8/10 else 6/10
  else if complexity = ("MODERATE").data then if 6/10 < mean then 7/10 else 5/10
  else if 5/10 < mean then 6/10 else 4/10

/-- The mean relevance across chunks (spec-side). -/
def meanRelevanceSpec (chunks : List ScoredChunk) : ℚ :=
  (chunks.map (fun c => c.enhancedRelevance.getD c.similarityScore)).sum / chunks.length

/-- C8: the confidence estimate is exactly 0.3 on an empty chunk list, and on
a nonempty list lies in [0.1, 1.0] and equals the complexity-dependent step
value of the mean relevance, plus 0.1 when at least five chunks are present,
clamped to [0.1, 1.0]. -/
theorem calculateConfidence_bounds_and_formula (chunks : List ScoredChunk)
    (complexity : Str) :
    (chunks = [] → calculateConfidence chunks complexity = 3/10)
    ∧ (chunks ≠ [] →
        1/10 ≤ calculateConfidence chunks complexity
        ∧ calculateConfidence chunks complexity ≤ 1
        ∧ calculateConfidence chunks complexity =
            min (max (confidenceStepSpec complexity (meanRelevanceSpec chunks)
              + (if 5 ≤ chunks.length then 1/10 else 0)) (1/10)) 1) := by
  constructor
  · intro he
    simp [calculateConfidence, he]
  · intro hne
    have hmapne : chunks.map (fun c => c.enhancedRelevance.getD c.similarityScore) ≠ [] := by
      simpa using hne
    have hform : calculateConfidence chunks complexity =
        min (max (confidenceStepSpec complexity (meanRelevanceSpec chunks)
          + (if 5 ≤ chunks.length then 1/10 else 0)) (1/10)) 1 := by
      unfold calculateConfidence confidenceStepSpec meanRelevanceSpec
      rw [if_neg hne, if_neg hmapne]
      simp only [List.length_map]
      split_ifs <;> ring_nf
    refine ⟨?_, ?_, hform⟩
    · rw [hform]
      have h1 : (1/10 : ℚ) ≤ max (confidenceStepSpec complexity (meanRelevanceSpec chunks)
          + (if 5 ≤ chunks.length then 1/10 else 0)) (1/10) := le_max_right _ _
      have h2 : (1/10 : ℚ) ≤ 1 := by norm_num
      exact le_min h1 h2
    · rw [hform]
      exact min_le_right _ _

/-- Witness for C8 on a concrete nonempty chunk list. -/
theorem calculateConfidence_bounds_and_formula_witness :
    (([⟨some (4/5), 0⟩] : List ScoredChunk) ≠ [])
      ∧ (1/10 ≤ calculateConfidence [⟨some (4/5), 0⟩] (("SIMPLE").data)
        ∧ calculateConfidence [⟨some (4/5), 0⟩] (("SIMPLE").data) ≤ 1
        ∧ calculateConfidence [⟨some (4/5), 0⟩] (("SIMPLE").data) =
            min (max (confidenceStepSpec (("SIMPLE").data)
                (meanRelevanceSpec [⟨some (4/5), 0⟩])
              + (if 5 ≤ ([⟨some (4/5), 0⟩] : List ScoredChunk).length then 1/10 else 0))
              (1/10)) 1) :=
  ⟨by simp, (calculateConfidence_bounds_and_formula [⟨some (4/5), 0⟩] (("SIMPLE").data)).2
    (by simp)⟩

/-! ## The follow-up example scenario (claim C4) -/

/-- The current query of example scenario 1. -/
def scenarioQuery : Str := ("give me examples of these").data

/-- The prior user question of example scenario 1. -/
def scenarioPrevQuestion : Str := ("What are formative assessment strategies?").data

/-- The prior assistant answer of example scenario 1 (a 300-character answer
about exit tickets and peer review). -/
def scenarioPrevAnswer : Str :=
  ("Formative assessment strategies include exit tickets, peer review, think-pair-share, low-stakes quizzes and observation checklists. Exit tickets let teachers check understanding at the end of a lesson, while peer review lets students give and receive feedback on drafts before any final grading.").data

/-- The two-message history of example scenario 1. -/
def scenarioMessages : List Message :=
  [{ role := ("user").data, content := scenarioPrevQuestion },
   { role := ("assistant").data, content := scenarioPrevAnswer }]

set_option maxRecDepth 200000 in
/-- Evaluation of the detector on example scenario 1: shared between the
counterexample and the amended claim. -/
theorem detect_scenario_eval (continuity : ℚ)
    (h : followUpThreshold scenarioMessages.length ≤ continuity) :
    detectFollowUpFromMessages scenarioQuery scenarioMessages continuity
      = (true, some { queryFocus := ("elaboration").data, confidence := continuity }) := by
  unfold detectFollowUpFromMessages
  rw [if_neg (by decide)]
  have hscan : scanPrevPair none scenarioMessages.reverse
      = (some { role := ("assistant").data, content := scenarioPrevAnswer },
         some { role := ("user").data, content := scenarioPrevQuestion }) := by decide
  simp only [hscan]
  rw [if_neg (by decide), if_pos h]
  have hfocus : identifyQueryFocusDynamic scenarioQuery scenarioPrevAnswer
      = ("elaboration").data := by decide
  rw [hfocus]

/-- The dynamic threshold for the two-message scenario history is 0.21. -/
theorem scenario_threshold_le_one : followUpThreshold scenarioMessages.length ≤ 1 := by
  have h2 : scenarioMessages.length = 2 := by decide
  rw [h2]
  norm_num [followUpThreshold, min_def]

set_option maxRecDepth 200000 in
/-- C4 counterexample: on example scenario 1 (history = the formative
assessment question plus a 295-character answer about exit tickets and peer
review, query = "give me examples of these"), the detector with full
semantic continuity does report a follow-up, but with
`query_focus = "elaboration"`, not `"examples"`: the five-word query hits the
`<= 6` word-count branch of `_identify_query_focus_dynamic` before the
`'example'` substring test is ever reached. -/
theorem followUp_scenario_counterexample :
    detectFollowUpFromMessages scenarioQuery scenarioMessages 1
        = (true, some { queryFocus := ("elaboration").data, confidence := 1 })
      ∧ identifyQueryFocusDynamic scenarioQuery scenarioPrevAnswer
          = ("elaboration").data
      ∧ ("elaboration").data ≠ ("examples").data :=
  ⟨detect_scenario_eval 1 scenario_threshold_le_one, by decide, by decide⟩

/-- C4 amended: on example scenario 1, whenever the semantic continuity
score reaches the dynamic threshold (0.21 for a two-message history), the
detector returns `isFollowUp = true` with `query_focus = "elaboration"`;
at no continuity value does it return `query_focus = "examples"`. -/
theorem followUp_scenario_amended (continuity : ℚ)
    (h : followUpThreshold scenarioMessages.length ≤ continuity) :
    detectFollowUpFromMessages scenarioQuery scenarioMessages continuity
      = (true, some { queryFocus := ("elaboration").data, confidence := continuity }) :=
  detect_scenario_eval continuity h

/-- Witness for the amended C4 at continuity 1. -/
theorem followUp_scenario_amended_witness :
    followUpThreshold scenarioMessages.length ≤ (1 : ℚ)
      ∧ detectFollowUpFromMessages scenarioQuery scenarioMessages 1
          = (true, some { queryFocus := ("elaboration").data, confidence := 1 }) :=
  ⟨scenario_threshold_le_one, followUp_scenario_amended 1 scenario_threshold_le_one⟩

/-- Total raw text length of a chunk list (the quantity `current_length`
tracks in `_optimize_context_for_llm`). -/
def includedTextLen (l : List CtxChunk) : ℕ := (l.map (fun c => c.text.length)).sum

/-- The selection loop only ever consumes a prefix of its input. -/
theorem pickChunks_initial_segment (l : List CtxChunk) :
    ∀ b cur, ∃ rest, l = pickChunks b cur l ++ rest := by
  induction l with
  | nil => intro b cur; exact ⟨[], rfl⟩
  | cons c l ih =>
    intro b cur
    unfold pickChunks
    by_cases h : maxContextChars < cur + c.text.length ∧ b = true
    · rw [if_pos h]
      exact ⟨c :: l, rfl⟩
    · rw [if_neg h]
      obtain ⟨r, hr⟩ := ih true (cur + c.text.length)
      exact ⟨r, by rw [List.cons_append, ← hr]⟩

/-- Once a chunk has been appended, the running total of raw text lengths
never exceeds the budget. -/
theorem pickChunks_budget (l : List CtxChunk) :
    ∀ cur, cur ≤ maxContextChars →
      cur + includedTextLen (pickChunks true cur l) ≤ maxContextChars := by
  induction l with
  | nil => intro cur h; simpa [pickChunks, includedTextLen] using h
  | cons c l ih =>
    intro cur h
    unfold pickChunks
    by_cases h12 : maxContextChars < cur + c.text.length
    · rw [if_pos ⟨h12, rfl⟩]
      simpa [includedTextLen] using h
    · rw [if_neg (by simp [h12])]
      have hcur : cur + c.text.length ≤ maxContextChars := Nat.le_of_not_lt h12
      have := ih (cur + c.text.length) hcur
      simp only [includedTextLen, List.map_cons, List.sum_cons] at this ⊢
      omega

/-- C1 amended: the chunks included by `_optimize_context_for_llm` form a
prefix of the document-ordered chunk list (truncation happens at chunk
boundaries, never mid-chunk), and the total raw text length of the included
chunks is at most the 12000-character budget unless exactly one chunk was
included and its text alone exceeds the budget.  (The returned string is the
join of one fully formatted part per included chunk; each part adds a
`Source:` header and separators on top of the raw text, so the string itself
may exceed 12000 by that per-chunk overhead — see the counterexample.) -/
theorem optimizeContext_budget_and_boundaries (chunks : List CtxChunk) :
    (∃ rest, sortChunksForContext chunks = includedChunks chunks ++ rest)
    ∧ optimizeContextForLLM chunks
        = pyJoin (("\\n").data) ((includedChunks chunks).map fmtChunk)
    ∧ (includedTextLen (includedChunks chunks) ≤ maxContextChars
        ∨ ∃ c, includedChunks chunks = [c] ∧ maxContextChars < c.text.length) := by
  refine ⟨?_, rfl, ?_⟩
  · obtain ⟨r, hr⟩ := pickChunks_initial_segment (sortChunksForContext chunks) false 0
    exact ⟨r, by rw [includedChunks, ← hr]⟩
  · unfold includedChunks
    cases hs : sortChunksForContext chunks with
    | nil => left; simp [pickChunks, includedTextLen]
    | cons c rest =>
      unfold pickChunks
      rw [if_neg (by simp)]
      by_cases hlen : c.text.length ≤ maxContextChars
      · left
        have := pickChunks_budget rest (0 + c.text.length) (by simpa using hlen)
        simp only [includedTextLen, List.map_cons, List.sum_cons] at this ⊢
        omega
      · right
        refine ⟨c, ?_, Nat.lt_of_not_le hlen⟩
        cases rest with
        | nil => simp [pickChunks]
        | cons d rest2 =>
          unfold pickChunks
          rw [if_pos ⟨by omega, rfl⟩]

/-- First chunk of the budget counterexample: 6000 characters from file
`a`. -/
def budgetCexA : CtxChunk :=
  { text := List.replicate 6000 'x', filename := ("a").data, chunkIndex := 0 }

/-- Second chunk of the budget counterexample: 6000 characters from file
`b`. -/
def budgetCexB : CtxChunk :=
  { text := List.replicate 6000 'y', filename := ("b").data, chunkIndex := 0 }

/-- C1 counterexample: two 6000-character chunks both pass the budget check
(the code compares only the running total of raw text lengths, and 12000 is
not greater than 12000), yet the returned string — with its two `Source:`
headers and separators — is 12028 characters long, exceeding the
12000-character budget although two chunks (not one) were included. -/
theorem optimizeContext_budget_counterexample :
    maxContextChars < (optimizeContextForLLM [budgetCexA, budgetCexB]).length
    ∧ (includedChunks [budgetCexA, budgetCexB]).length = 2 := by
  have hsort : sortChunksForContext [budgetCexA, budgetCexB] = [budgetCexA, budgetCexB] := rfl
  have hlenA : budgetCexA.text.length = 6000 := by
    rw [show budgetCexA.text = List.replicate 6000 'x' from rfl, List.length_replicate]
  have hlenB : budgetCexB.text.length = 6000 := by
    rw [show budgetCexB.text = List.replicate 6000 'y' from rfl, List.length_replicate]
  have hinc : includedChunks [budgetCexA, budgetCexB] = [budgetCexA, budgetCexB] := by
    simp only [includedChunks, hsort]
    norm_num [pickChunks, hlenA, hlenB, maxContextChars]
  constructor
  · have hS : (("Source: ").data).length = 8 := rfl
    have hN : (("\\n").data).length = 2 := rfl
    have ha : ((("a").data : Str)).length = 1 := rfl
    have hb : ((("b").data : Str)).length = 1 := rfl
    have hfa : budgetCexA.filename = ("a").data := rfl
    have hfb : budgetCexB.filename = ("b").data := rfl
    unfold optimizeContextForLLM
    rw [hinc]
    simp only [List.map_cons, List.map_nil, pyJoin, fmtChunk, hfa, hfb]
    simp only [List.length_append, hS, hN, ha, hb, hlenA, hlenB, maxContextChars]
    norm_num
  · rw [hinc]
    rfl

/-- Inserting preserves the elements (as a permutation of consing). -/
theorem insertScoreDesc_perm (c : Cand) (l : List Cand) :
    (insertScoreDesc c l).Perm (c :: l) := by
  induction l with
  | nil => exact List.Perm.refl _
  | cons d ds ih =>
    unfold insertScoreDesc
    by_cases h : d.score ≤ c.score
    · rw [if_pos h]
    · rw [if_neg h]
      exact ((ih.cons d).trans (List.Perm.swap c d ds))

/-- The score sort permutes its input. -/
theorem sortByScoreDesc_perm (l : List Cand) : (sortByScoreDesc l).Perm l := by
  induction l with
  | nil => exact List.Perm.refl _
  | cons c cs ih =>
    exact (insertScoreDesc_perm c (sortByScoreDesc cs)).trans (ih.cons c)

/-- Inserting into a score-descending list keeps it score-descending. -/
theorem insertScoreDesc_pairwise (c : Cand) (l : List Cand)
    (h : List.Pairwise (fun a b => b.score ≤ a.score) l) :
    List.Pairwise (fun a b => b.score ≤ a.score) (insertScoreDesc c l) := by
  induction l with
  | nil => simp [insertScoreDesc]
  | cons d ds ih =>
    unfold insertScoreDesc
    by_cases hdc : d.score ≤ c.score
    · rw [if_pos hdc]
      refine List.Pairwise.cons ?_ h
      intro x hx
      rcases List.mem_cons.mp hx with hx | hx
      · exact hx ▸ hdc
      · exact le_trans ((List.pairwise_cons.mp h).1 x hx) hdc
    · rw [if_neg hdc]
      obtain ⟨hd, hds⟩ := List.pairwise_cons.mp h
      refine List.Pairwise.cons ?_ (ih hds)
      intro x hx
      rcases List.mem_cons.mp ((insertScoreDesc_perm c ds).mem_iff.mp hx) with hx2 | hx2
      · exact hx2 ▸ le_of_lt (lt_of_not_le hdc)
      · exact hd x hx2

/-- The score sort produces a score-descending list. -/
theorem sortByScoreDesc_pairwise (l : List Cand) :
    List.Pairwise (fun a b => b.score ≤ a.score) (sortByScoreDesc l) := by
  induction l with
  | nil => simp [sortByScoreDesc]
  | cons c cs ih => exact insertScoreDesc_pairwise c _ ih

/-- C6: in admin mode the selector returns every input candidate — the
output is exactly the input sorted by descending score, so it has the same
length, is a permutation of the input (no entry dropped, no dedup, no cap),
and is ordered by descending score. -/
theorem processSelect_admin_bypass (pool : List Cand) (cap : ℕ) :
    processSelect (("admin").data) cap pool = sortByScoreDesc pool
    ∧ (processSelect (("admin").data) cap pool).length = pool.length
    ∧ (processSelect (("admin").data) cap pool).Perm pool
    ∧ List.Pairwise (fun a b => b.score ≤ a.score)
        (processSelect (("admin").data) cap pool) := by
  have h : processSelect (("admin").data) cap pool = sortByScoreDesc pool := by
    simp [processSelect, adminSelect]
  refine ⟨h, ?_, ?_, ?_⟩
  · rw [h]; exact (sortByScoreDesc_perm pool).length_eq
  · rw [h]; exact sortByScoreDesc_perm pool
  · rw [h]; exact sortByScoreDesc_pairwise pool

/-- Pass 1 consumes a subsequence of the walked list. -/
theorem pass1_sublist (cap : ℕ) :
    ∀ (l : List Cand) sI sF k, (pass1 cap l sI sF k).Sublist l := by
  intro l
  induction l with
  | nil => intro sI sF k; simp [pass1]
  | cons c rest ih =>
    intro sI sF k
    unfold pass1
    by_cases h : c.id ∉ sI ∧ c.filename ∉ sF
    · rw [if_pos h]
      by_cases hcap : cap ≤ k + 1
      · rw [if_pos hcap]
        exact List.cons_sublist_cons.mpr (List.nil_sublist rest)
      · rw [if_neg hcap]
        exact List.cons_sublist_cons.mpr (ih _ _ _)
    · rw [if_neg h]
      exact (ih sI sF k).cons c

/-- Pass 2 consumes a subsequence of the walked list. -/
theorem pass2_sublist : ∀ (l : List Cand) (r : ℕ) sI, (pass2 r l sI).Sublist l := by
  intro l
  induction l with
  | nil => intro r sI; simp [pass2]
  | cons c rest ih =>
    intro r sI
    unfold pass2
    by_cases h : c.id ∉ sI
    · rw [if_pos h]
      by_cases hr : r ≤ 1
      · rw [if_pos hr]
        exact List.cons_sublist_cons.mpr (List.nil_sublist rest)
      · rw [if_neg hr]
        exact List.cons_sublist_cons.mpr (ih _ _)
    · rw [if_neg h]
      exact (ih r sI).cons c

/-- C7: the standard-mode selector walks the pool in descending score order:
its output splits into the two pass outputs, each a subsequence of the
score-descending sorted pool (hence each accepted candidate scores at least
as high as every candidate considered after it in its pass), and the first
accepted candidate carries the maximal score of the whole pool. -/
theorem standardSelect_descending_walk (cap : ℕ) (pool : List Cand)
    (hne : pool ≠ []) :
    (∃ l1 l2, standardSelect cap pool = l1 ++ l2
        ∧ l1.Sublist (sortByScoreDesc pool) ∧ l2.Sublist (sortByScoreDesc pool)
        ∧ List.Pairwise (fun a b => b.score ≤ a.score) l1
        ∧ List.Pairwise (fun a b => b.score ≤ a.score) l2)
    ∧ ∃ c cs, standardSelect cap pool = c :: cs ∧ ∀ d ∈ pool, d.score ≤ c.score := by
  have hsorted := sortByScoreDesc_pairwise pool
  have hsub1 := pass1_sublist cap (sortByScoreDesc pool) [] [] 0
  constructor
  · unfold standardSelect
    by_cases h : 0 < cap - (pass1 cap (sortByScoreDesc pool) [] [] 0).length
    · rw [if_pos h]
      exact ⟨_, _, rfl, hsub1, pass2_sublist _ _ _,
        hsorted.sublist hsub1, hsorted.sublist (pass2_sublist _ _ _)⟩
    · rw [if_neg h]
      exact ⟨_, [], (List.append_nil _).symm, hsub1, List.nil_sublist _,
        hsorted.sublist hsub1, List.Pairwise.nil⟩
  · obtain ⟨c, cs, hcs⟩ : ∃ c cs, sortByScoreDesc pool = c :: cs := by
      cases hs : sortByScoreDesc pool with
      | nil =>
        have hperm := sortByScoreDesc_perm pool
        rw [hs] at hperm
        exact absurd hperm.symm.eq_nil hne
      | cons c cs => exact ⟨c, cs, rfl⟩
    have hmax : ∀ d ∈ pool, d.score ≤ c.score := by
      intro d hd
      have hd2 : d ∈ c :: cs := hcs ▸ (sortByScoreDesc_perm pool).mem_iff.mpr hd
      rcases List.mem_cons.mp hd2 with h | h
      · exact h ▸ le_refl _
      · have := hcs ▸ hsorted
        exact (List.pairwise_cons.mp this).1 d h
    have hp1 : ∃ t, pass1 cap (sortByScoreDesc pool) [] [] 0 = c :: t := by
      rw [hcs]
      unfold pass1
      rw [if_pos (by simp)]
      by_cases hcap : cap ≤ 0 + 1
      · rw [if_pos hcap]; exact ⟨[], rfl⟩
      · rw [if_neg hcap]; exact ⟨_, rfl⟩
    obtain ⟨t, ht⟩ := hp1
    unfold standardSelect
    rw [ht]
    by_cases h : 0 < cap - (c :: t).length
    · rw [if_pos h]
      exact ⟨c, _, rfl, hmax⟩
    · rw [if_neg h]
      exact ⟨c, t, rfl, hmax⟩

/-- Witness for C7 on a concrete two-candidate pool. -/
theorem standardSelect_descending_walk_witness :
    (([⟨("i1").data, ("f1").data, 2⟩, ⟨("i2").data, ("f2").data, 3⟩] : List Cand) ≠ [])
      ∧ ((∃ l1 l2, standardSelect 5
            [⟨("i1").data, ("f1").data, 2⟩, ⟨("i2").data, ("f2").data, 3⟩] = l1 ++ l2
          ∧ l1.Sublist (sortByScoreDesc
              [⟨("i1").data, ("f1").data, 2⟩, ⟨("i2").data, ("f2").data, 3⟩])
          ∧ l2.Sublist (sortByScoreDesc
              [⟨("i1").data, ("f1").data, 2⟩, ⟨("i2").data, ("f2").data, 3⟩])
          ∧ List.Pairwise (fun a b => b.score ≤ a.score) l1
          ∧ List.Pairwise (fun a b => b.score ≤ a.score) l2)
        ∧ ∃ c cs, standardSelect 5
            [⟨("i1").data, ("f1").data, 2⟩, ⟨("i2").data, ("f2").data, 3⟩] = c :: cs
          ∧ ∀ d ∈ ([⟨("i1").data, ("f1").data, 2⟩,
                ⟨("i2").data, ("f2").data, 3⟩] : List Cand),
              d.score ≤ c.score) :=
  ⟨by simp, standardSelect_descending_walk 5 _ (by simp)⟩

/-- The number of distinct filenames in a candidate list that are not yet in
`seenF` (the quantity pass 1 consumes). -/
def newFiles : List Str → List Cand → ℕ
  | _, [] => 0
  | seenF, c :: rest =>
    if c.filename ∈ seenF then newFiles seenF rest
    else 1 + newFiles (c.filename :: seenF) rest

/-- `newFiles` counts the distinct filenames outside the seen set. -/
theorem newFiles_eq_card : ∀ (l : List Cand) (seenF : List Str),
    newFiles seenF l = ((l.map Cand.filename).toFinset \ seenF.toFinset).card := by
  intro l
  induction l with
  | nil => intro seenF; simp [newFiles]
  | cons c rest ih =>
    intro seenF
    unfold newFiles
    by_cases hmem : c.filename ∈ seenF
    · rw [if_pos hmem, ih]
      have : c.filename ∈ seenF.toFinset := List.mem_toFinset.mpr hmem
      simp [Finset.insert_sdiff_of_mem _ this]
    · rw [if_neg hmem, ih]
      have hnot : c.filename ∉ seenF.toFinset := fun h => hmem (List.mem_toFinset.mp h)
      simp only [List.map_cons, List.toFinset_cons]
      rw [Finset.insert_sdiff_of_not_mem _ hnot, Finset.sdiff_insert]
      by_cases ha : c.filename ∈ (rest.map Cand.filename).toFinset \ seenF.toFinset
      · rw [Finset.card_insert_of_mem ha, Finset.card_erase_of_mem ha]
        have : 0 < ((rest.map Cand.filename).toFinset \ seenF.toFinset).card :=
          Finset.card_pos.mpr ⟨c.filename, ha⟩
        omega
      · rw [Finset.card_insert_of_not_mem ha, Finset.erase_eq_of_not_mem ha]
        omega

/-- Length of the pass-1 output: when all candidate ids are distinct and
unseen, pass 1 accepts one candidate per new filename until the cap is
reached. -/
theorem pass1_length (cap : ℕ) : ∀ (l : List Cand) sI sF k,
    (l.map Cand.id).Nodup → (∀ c ∈ l, c.id ∉ sI) → k < cap →
    (pass1 cap l sI sF k).length = min (cap - k) (newFiles sF l) := by
  intro l
  induction l with
  | nil => intro sI sF k _ _ hk; simp [pass1, newFiles]
  | cons c rest ih =>
    intro sI sF k hnodup hids hk
    rw [List.map_cons, List.nodup_cons] at hnodup
    obtain ⟨hhead, htail⟩ := hnodup
    have hcid : c.id ∉ sI := hids c (List.mem_cons_self c rest)
    unfold pass1 newFiles
    by_cases hf : c.filename ∈ sF
    · rw [if_neg (by simp [hcid, hf]), if_pos hf]
      exact ih sI sF k htail (fun d hd => hids d (List.mem_cons_of_mem c hd)) hk
    · rw [if_pos ⟨hcid, hf⟩, if_neg hf]
      by_cases hcap : cap ≤ k + 1
      · rw [if_pos hcap]
        have h1 : cap - k = 1 := by omega
        simp [h1]
      · rw [if_neg hcap]
        have hrec := ih (c.id :: sI) (c.filename :: sF) (k + 1) htail ?_ (by omega)
        · simp only [List.length_cons, hrec]
          omega
        · intro d hd
          simp only [List.mem_cons]
          push_neg
          constructor
          · intro hEq
            exact hhead (hEq ▸ List.mem_map_of_mem Cand.id hd)
          · exact hids d (List.mem_cons_of_mem c hd)

/-- The filenames of the pass-1 output are pairwise distinct and all outside
the seen set. -/
theorem pass1_files_nodup (cap : ℕ) : ∀ (l : List Cand) sI sF k,
    ((pass1 cap l sI sF k).map Cand.filename).Nodup
    ∧ ∀ f ∈ (pass1 cap l sI sF k).map Cand.filename, f ∉ sF := by
  intro l
  induction l with
  | nil => intro sI sF k; simp [pass1]
  | cons c rest ih =>
    intro sI sF k
    unfold pass1
    by_cases h : c.id ∉ sI ∧ c.filename ∉ sF
    · rw [if_pos h]
      by_cases hcap : cap ≤ k + 1
      · rw [if_pos hcap]
        simp [h.2]
      · rw [if_neg hcap]
        obtain ⟨ihnd, ihout⟩ := ih (c.id :: sI) (c.filename :: sF) (k + 1)
        constructor
        · simp only [List.map_cons, List.nodup_cons]
          refine ⟨fun hmem => ?_, ihnd⟩
          have := ihout c.filename hmem
          simp at this
        · intro f hf
          simp only [List.map_cons, List.mem_cons] at hf
          rcases hf with hf | hf
          · exact hf ▸ h.2
          · have := ihout f hf
            intro hfF
            exact this (List.mem_cons_of_mem _ hfF)
    · rw [if_neg h]
      exact ih sI sF k

/-- C2 amended: for every candidate pool whose candidates carry pairwise
distinct ids and at least `cap ≥ 1` distinct filenames, the standard-mode
two-pass selection returns exactly `cap` entries with pairwise distinct
filenames (pass 1 alone fills the cap).  The distinct-id hypothesis is
necessary: the chunk dicts reaching this code carry no `id` key at all, so
`chunk.get('id', '')` collides on every pair — see the counterexample. -/
theorem standardSelect_dedup_diversity (cap : ℕ) (pool : List Cand)
    (hcap : 1 ≤ cap) (hids : (pool.map Cand.id).Nodup)
    (hfiles : cap ≤ (pool.map Cand.filename).toFinset.card) :
    (standardSelect cap pool).length = cap
    ∧ ((standardSelect cap pool).map Cand.filename).Nodup := by
  have hperm := sortByScoreDesc_perm pool
  have hSids : ((sortByScoreDesc pool).map Cand.id).Nodup :=
    ((hperm.map Cand.id).nodup_iff).mpr hids
  have hSfin : ((sortByScoreDesc pool).map Cand.filename).toFinset
      = (pool.map Cand.filename).toFinset := by
    ext a
    simp [List.mem_toFinset, (hperm.map Cand.filename).mem_iff]
  have hnew : newFiles [] (sortByScoreDesc pool)
      = ((pool.map Cand.filename).toFinset).card := by
    rw [newFiles_eq_card, hSfin]
    simp
  have hp1len : (pass1 cap (sortByScoreDesc pool) [] [] 0).length = cap := by
    rw [pass1_length cap _ [] [] 0 hSids (by simp) (by omega), hnew]
    omega
  have hzero : ¬ 0 < cap - (pass1 cap (sortByScoreDesc pool) [] [] 0).length := by
    rw [hp1len]
    omega
  unfold standardSelect
  rw [if_neg hzero]
  exact ⟨hp1len, (pass1_files_nodup cap _ [] [] 0).1⟩

/-- Witness for the amended C2 on a concrete two-candidate pool. -/
theorem standardSelect_dedup_diversity_witness :
    (1 ≤ 2
      ∧ (([⟨("i1").data, ("f1").data, 2⟩, ⟨("i2").data, ("f2").data, 1⟩]
          : List Cand).map Cand.id).Nodup
      ∧ 2 ≤ ((([⟨("i1").data, ("f1").data, 2⟩, ⟨("i2").data, ("f2").data, 1⟩]
          : List Cand).map Cand.filename).toFinset.card))
    ∧ ((standardSelect 2 [⟨("i1").data, ("f1").data, 2⟩,
          ⟨("i2").data, ("f2").data, 1⟩]).length = 2
      ∧ ((standardSelect 2 [⟨("i1").data, ("f1").data, 2⟩,
          ⟨("i2").data, ("f2").data, 1⟩]).map Cand.filename).Nodup) :=
  ⟨⟨by decide, by decide, by decide⟩,
    standardSelect_dedup_diversity 2 _ (by decide) (by decide) (by decide)⟩

/-- A pool of five candidates from five distinct files whose ids all collide
on the empty string — exactly what the production dicts look like, since
`VectorDB.search_similar_chunks` results carry no `id` key. -/
def dupIdPool : List Cand :=
  [⟨[], ("f1").data, 5⟩, ⟨[], ("f2").data, 4⟩, ⟨[], ("f3").data, 3⟩,
   ⟨[], ("f4").data, 2⟩, ⟨[], ("f5").data, 1⟩]

/-- C2 counterexample: a pool with five distinct filenames (the configured
cap, `max_context_chunks = 5`) on which the standard-mode selection returns
a single entry, not five: after the top-scored candidate is accepted, its
(empty) id is in `seen_ids` and every later candidate is rejected by the id
check in both passes. -/
theorem standardSelect_dedup_counterexample :
    ((dupIdPool.map Cand.filename).toFinset.card = 5)
    ∧ (standardSelect 5 dupIdPool).length = 1 := by
  constructor
  · decide
  · decide

/-- The filter of `mergeStep` drops a chunk only when an equal chunk (same
dict, hence same tag and scores) is already in the pool, so every member of
the tagged list is a member of the extended pool. -/
theorem mem_mergeStep_of_mem_tagged (pool tagged : List QChunk) (x : QChunk)
    (hx : x ∈ tagged) : x ∈ mergeStep pool tagged := by
  by_cases hp : x ∈ pool
  · exact List.mem_append_left _ hp
  · refine List.mem_append_right _ (List.mem_filter.mpr ⟨hx, ?_⟩)
    simpa using hp

/-- Pool members survive a merge step. -/
theorem mem_mergeStep_of_mem_pool (pool tagged : List QChunk) (x : QChunk)
    (hx : x ∈ pool) : x ∈ mergeStep pool tagged :=
  List.mem_append_left _ hx

/-- Pool-2 membership is preserved into pool 3. -/
theorem mem_mergePool3_of_mem_pool2 (query : Str)
    (primary holidayRes formRes : List FinalRes) (x : QChunk)
    (hx : x ∈ mergePool2 query primary holidayRes) :
    x ∈ mergePool3 query primary holidayRes formRes := by
  unfold mergePool3
  by_cases h : formTrigger query
  · rw [if_pos h]; exact mem_mergeStep_of_mem_pool _ _ _ hx
  · rw [if_neg h]; exact hx

/-- Pool-3 membership is preserved into the final merged pool. -/
theorem mem_mergeCandidates_of_mem_pool3 (query : Str)
    (primary holidayRes formRes keywordRes : List FinalRes) (x : QChunk)
    (hx : x ∈ mergePool3 query primary holidayRes formRes) :
    x ∈ mergeCandidates query primary holidayRes formRes keywordRes := by
  unfold mergeCandidates
  by_cases h : extractCoreKeywords query ≠ []
  · rw [if_pos h]; exact mem_mergeStep_of_mem_pool _ _ _ hx
  · rw [if_neg h]; exact hx

/-- C3: the merge keeps every element of every strategy output: each primary
result appears in the merged pool untagged, and each result of a triggered
enhanced strategy appears tagged with its strategy — the pool element is the
tagged dict itself, so it retains its `search_strategy` value and its raw
`similarity_score`.  The `not in` filter of the merge can only drop an
occurrence whose dict (tag and scores included) is already present. -/
theorem mergeCandidates_keeps_all_strategy_results (query : Str)
    (primary holidayRes formRes keywordRes : List FinalRes) (r : FinalRes) :
    (r ∈ primary →
      (⟨r, none, none⟩ : QChunk)
        ∈ mergeCandidates query primary holidayRes formRes keywordRes)
    ∧ (holidayTrigger query = true → r ∈ holidayRes →
      (⟨r, some (("HOLIDAY").data), none⟩ : QChunk)
        ∈ mergeCandidates query primary holidayRes formRes keywordRes)
    ∧ (formTrigger query = true → r ∈ formRes →
      (⟨r, some (("FORM").data), none⟩ : QChunk)
        ∈ mergeCandidates query primary holidayRes formRes keywordRes)
    ∧ (extractCoreKeywords query ≠ [] → r ∈ keywordRes →
      (⟨r, some (("KEYWORD").data), none⟩ : QChunk)
        ∈ mergeCandidates query primary holidayRes formRes keywordRes) := by
  refine ⟨?_, ?_, ?_, ?_⟩
  · intro hr
    refine mem_mergeCandidates_of_mem_pool3 _ _ _ _ _ _
      (mem_mergePool3_of_mem_pool2 _ _ _ _ _ ?_)
    unfold mergePool2
    have hx : (⟨r, none, none⟩ : QChunk) ∈ mergePool1 primary :=
      List.mem_map_of_mem _ hr
    by_cases h : holidayTrigger query
    · rw [if_pos h]; exact mem_mergeStep_of_mem_pool _ _ _ hx
    · rw [if_neg h]; exact hx
  · intro htrig hr
    refine mem_mergeCandidates_of_mem_pool3 _ _ _ _ _ _
      (mem_mergePool3_of_mem_pool2 _ _ _ _ _ ?_)
    unfold mergePool2
    rw [if_pos htrig]
    exact mem_mergeStep_of_mem_tagged _ _ _ (List.mem_map_of_mem _ hr)
  · intro htrig hr
    refine mem_mergeCandidates_of_mem_pool3 _ _ _ _ _ _ ?_
    unfold mergePool3
    rw [if_pos htrig]
    exact mem_mergeStep_of_mem_tagged _ _ _ (List.mem_map_of_mem _ hr)
  · intro hkw hr
    unfold mergeCandidates
    rw [if_pos hkw]
    exact mem_mergeStep_of_mem_tagged _ _ _ (List.mem_map_of_mem _ hr)

/-- Sample metadata for witnesses. -/
def metaEx : Meta :=
  { text := [], content := [], documentContent := [], chunkText := [],
    chunkContent := [], preview := [], filename := ("f.pdf").data,
    contentType := [], chunkLength := 0, chunkIndex := 0, ocrUsed := [],
    sectionTitle := [], documentTitle := [] }

/-- Sample search result for witnesses. -/
def resEx : FinalRes :=
  { text := ("hello").data, similarityScore := 1, relevanceScore := 1,
    metadata := metaEx, rank := 1 }

/-- A query that fires every strategy: it contains `holiday` and `form`, and
the literal sequence backslash-`b`-backslash-`www`-backslash-`b` that the
miswritten keyword regex actually matches. -/
def mergeWitnessQuery : Str := ("holiday form \\b\\wwww\\b").data

/-- Witness for C3: with every strategy fired, the sample result appears in
the merged pool under all four tags. -/
theorem mergeCandidates_keeps_all_strategy_results_witness :
    (resEx ∈ [resEx] ∧ holidayTrigger mergeWitnessQuery = true
      ∧ formTrigger mergeWitnessQuery = true
      ∧ extractCoreKeywords mergeWitnessQuery ≠ [])
    ∧ ((⟨resEx, none, none⟩ : QChunk)
          ∈ mergeCandidates mergeWitnessQuery [resEx] [resEx] [resEx] [resEx]
        ∧ (⟨resEx, some (("HOLIDAY").data), none⟩ : QChunk)
          ∈ mergeCandidates mergeWitnessQuery [resEx] [resEx] [resEx] [resEx]
        ∧ (⟨resEx, some (("FORM").data), none⟩ : QChunk)
          ∈ mergeCandidates mergeWitnessQuery [resEx] [resEx] [resEx] [resEx]
        ∧ (⟨resEx, some (("KEYWORD").data), none⟩ : QChunk)
          ∈ mergeCandidates mergeWitnessQuery [resEx] [resEx] [resEx] [resEx]) := by
  have h1 : resEx ∈ [resEx] := List.mem_singleton.mpr rfl
  have h2 : holidayTrigger mergeWitnessQuery = true := by decide
  have h3 : formTrigger mergeWitnessQuery = true := by decide
  have h4 : extractCoreKeywords mergeWitnessQuery ≠ [] := by decide
  have hthm := mergeCandidates_keeps_all_strategy_results mergeWitnessQuery
    [resEx] [resEx] [resEx] [resEx] resEx
  exact ⟨⟨h1, h2, h3, h4⟩,
    hthm.1 h1, hthm.2.1 h2 h1, hthm.2.2.1 h3 h1, hthm.2.2.2 h4 h1⟩

/-- Every result kept by the dedup stage has a fingerprint longer than 20
characters, hence raw text longer than 20 characters. -/
theorem dedupEnhance_text_long : ∀ (l : List SRes) (seen : List Str),
    ∀ x ∈ dedupEnhance seen l, 20 < x.text.length := by
  intro l
  induction l with
  | nil => intro seen x hx; simp [dedupEnhance] at hx
  | cons r rest ih =>
    intro seen x hx
    unfold dedupEnhance at hx
    by_cases hc : pyLower (pyStrip (r.text.take 100)) ≠ []
        ∧ pyLower (pyStrip (r.text.take 100)) ∉ seen
        ∧ 20 < (pyLower (pyStrip (r.text.take 100))).length
    · rw [if_pos hc] at hx
      rcases List.mem_cons.mp hx with hx | hx
      · have hfp : 20 < (pyLower (pyStrip (r.text.take 100))).length := hc.2.2
        have h1 : (pyLower (pyStrip (r.text.take 100))).length
            = (pyStrip (r.text.take 100)).length := List.length_map _ _
        have h2 : (pyStrip (r.text.take 100)).length ≤ (r.text.take 100).length := by
          unfold pyStrip
          calc ((((r.text.take 100).dropWhile Char.isWhitespace).reverse.dropWhile
                Char.isWhitespace).reverse).length
              = (((r.text.take 100).dropWhile Char.isWhitespace).reverse.dropWhile
                Char.isWhitespace).length := List.length_reverse _
            _ ≤ (((r.text.take 100).dropWhile Char.isWhitespace).reverse).length :=
                (List.dropWhile_sublist _).length_le
            _ = (((r.text.take 100).dropWhile Char.isWhitespace)).length :=
                List.length_reverse _
            _ ≤ (r.text.take 100).length := (List.dropWhile_sublist _).length_le
        have h3 : (r.text.take 100).length ≤ r.text.length :=
          (List.take_sublist _ _).length_le
        have hxt : x.text = r.text := by rw [hx]
        rw [hxt]
        omega
      · exact ih _ x hx
    · rw [if_neg hc] at hx
      exact ih _ x hx

/-- Inserting preserves the elements of the enhanced-score sort. -/
theorem insertEnhDesc_perm (c : SRes) (l : List SRes) :
    (insertEnhDesc c l).Perm (c :: l) := by
  induction l with
  | nil => exact List.Perm.refl _
  | cons d ds ih =>
    unfold insertEnhDesc
    by_cases h : d.enhancedScore.getD 0 ≤ c.enhancedScore.getD 0
    · rw [if_pos h]
    · rw [if_neg h]
      exact ((ih.cons d).trans (List.Perm.swap c d ds))

/-- The enhanced-score sort permutes its input. -/
theorem sortByEnhDesc_perm (l : List SRes) : (sortByEnhDesc l).Perm l := by
  induction l with
  | nil => exact List.Perm.refl _
  | cons c cs ih =>
    exact (insertEnhDesc_perm c (sortByEnhDesc cs)).trans (ih.cons c)

/-- Inserting preserves the elements of the rerank sort. -/
theorem insertRerank_perm (c : FinalRes) (l : List FinalRes) :
    (insertRerank c l).Perm (c :: l) := by
  induction l with
  | nil => exact List.Perm.refl _
  | cons d ds ih =>
    unfold insertRerank
    by_cases h : rerankKeyLE d c
    · rw [if_pos h]
    · rw [if_neg h]
      exact ((ih.cons d).trans (List.Perm.swap c d ds))

/-- The rerank sort permutes its input. -/
theorem rerank_sortRerank_perm (l : List FinalRes) :
    (rerankResults.sortRerank l).Perm l := by
  induction l with
  | nil => exact List.Perm.refl _
  | cons c cs ih =>
    exact (insertRerank_perm c (rerankResults.sortRerank cs)).trans (ih.cons c)

/-- Renumbering ranks preserves texts. -/
theorem rerank_renumber_text : ∀ (l : List FinalRes) (i : ℕ),
    ∀ x ∈ rerankResults.renumber i l, ∃ y ∈ l, x.text = y.text := by
  intro l
  induction l with
  | nil => intro i x hx; simp [rerankResults.renumber] at hx
  | cons c cs ih =>
    intro i x hx
    unfold rerankResults.renumber at hx
    rcases List.mem_cons.mp hx with hx | hx
    · exact ⟨c, List.mem_cons_self c cs, by rw [hx]⟩
    · obtain ⟨y, hy, hxy⟩ := ih (i + 1) x hx
      exact ⟨y, List.mem_cons_of_mem c hy, hxy⟩

/-- Every text in the reranked output is the text of an input result. -/
theorem rerankResults_text (l : List FinalRes) (x : FinalRes)
    (hx : x ∈ rerankResults l) : ∃ y ∈ l, x.text = y.text := by
  obtain ⟨y, hy, hxy⟩ := rerank_renumber_text (rerankResults.sortRerank l) 0 x hx
  exact ⟨y, (rerank_sortRerank_perm l).mem_iff.mp hy, hxy⟩

/-- C10: the search pipeline never returns a result whose text is 20
characters or shorter — `_deduplicate_and_enhance_results` drops any result
whose 100-character fingerprint has length at most 20, and every later stage
(scoring, sorting, truncation, enhancement, reranking) preserves texts;
moreover `_search_pinecone_advanced` already drops any match whose extracted
text has stripped length at most 20. -/
theorem searchSimilarChunks_never_returns_short_texts
    (primary expanded cross fuzzy : List SRes) (topK : ℕ)
    (namespaceGiven reranking : Bool) (query : Str)
    (indexCall : Except Str (List PMatch)) :
    ((searchSimilarChunksFrom primary expanded cross fuzzy topK namespaceGiven
        reranking query).all (fun r => decide (20 < r.text.length)) = true)
    ∧ ((searchPineconeAdvanced indexCall).all
        (fun r => decide (20 < (pyStrip r.text).length)) = true) := by
  constructor
  · rw [List.all_eq_true]
    intro r hr
    rw [decide_eq_true_iff]
    unfold searchSimilarChunksFrom at hr
    set all4 := (fun l : List SRes =>
      if ((l.length : ℚ)) < (topK : ℚ) * (8/10) then l ++ fuzzy else l)
      ((fun l : List SRes => if namespaceGiven ∧ l.length < topK then l ++ cross else l)
        (if ((primary.length : ℚ)) < (topK : ℚ) * (7/10) then primary ++ expanded
          else primary)) with hall4
    have hr2 : r ∈ (if reranking ∧
        1 < (enhanceSearchResults ((sortByEnhDesc
          (applyEducationalScoring query (dedupEnhance [] all4))).take topK)).length
      then rerankResults (enhanceSearchResults ((sortByEnhDesc
          (applyEducationalScoring query (dedupEnhance [] all4))).take topK))
      else enhanceSearchResults ((sortByEnhDesc
          (applyEducationalScoring query (dedupEnhance [] all4))).take topK)) := hr
    have key : ∀ x ∈ enhanceSearchResults ((sortByEnhDesc
        (applyEducationalScoring query (dedupEnhance [] all4))).take topK),
        20 < x.text.length := by
      intro x hx
      obtain ⟨y, hy, hxy⟩ := List.mem_map.mp hx
      have hy2 : y ∈ sortByEnhDesc (applyEducationalScoring query (dedupEnhance [] all4)) :=
        (List.take_sublist _ _).mem hy
      have hy3 : y ∈ applyEducationalScoring query (dedupEnhance [] all4) :=
        (sortByEnhDesc_perm _).mem_iff.mp hy2
      obtain ⟨z, hz, hyz⟩ := List.mem_map.mp hy3
      have hzlong : 20 < z.text.length := dedupEnhance_text_long all4 [] z hz
      have hxt : x.text = z.text := by
        rw [← hxy, ← hyz]
      rw [hxt]
      exact hzlong
    by_cases hbr : reranking ∧ 1 < (enhanceSearchResults ((sortByEnhDesc
        (applyEducationalScoring query (dedupEnhance [] all4))).take topK)).length
    · rw [if_pos hbr] at hr2
      obtain ⟨y, hy, hxy⟩ := rerankResults_text _ r hr2
      rw [hxy]
      exact key y hy
    · rw [if_neg hbr] at hr2
      exact key r hr2
  · rw [List.all_eq_true]
    intro r hr
    rw [decide_eq_true_iff]
    have go_long : ∀ (ms : List PMatch) (i : ℕ),
        ∀ x ∈ formatPineconeMatches.go i ms, 20 < (pyStrip x.text).length := by
      intro ms
      induction ms with
      | nil => intro i x hx; simp [formatPineconeMatches.go] at hx
      | cons m rest ih =>
        intro i x hx
        unfold formatPineconeMatches.go at hx
        by_cases hc : extractTextFromMetadata m.metadata ≠ []
            ∧ 20 < (pyStrip (extractTextFromMetadata m.metadata)).length
        · rw [if_pos hc] at hx
          rcases List.mem_cons.mp hx with hx | hx
          · rw [hx]
            exact hc.2
          · exact ih _ x hx
        · rw [if_neg hc] at hx
          exact ih _ x hx
    match indexCall with
    | Except.error e => simp [searchPineconeAdvanced] at hr
    | Except.ok ms => exact go_long ms 0 r hr

/-- C9: retrieval degrades gracefully instead of raising — a failed index
call makes `_search_pinecone_advanced` contribute an empty list,
`search_similar_chunks` returns normally (never an error) for every
combination of strategy outcomes, `_retrieve_relevant_chunks` returns
normally for every behaviour of its search collaborator, and when every
search call fails it returns the empty list. -/
theorem retrieval_never_raises :
    (∀ e : Str, searchPineconeAdvanced (Except.error e) = [])
    ∧ (∀ (primaryCall : Except Str (List PMatch))
        (expandedCall crossCall fuzzyCall : Except Str (List SRes))
        (topK : ℕ) (namespaceGiven reranking : Bool) (query : Str),
        ∃ l, searchSimilarChunksE primaryCall expandedCall crossCall fuzzyCall
          topK namespaceGiven reranking query = Except.ok l)
    ∧ (∀ (search : Str → ℕ → Except Str (List FinalRes)) (query : Str)
        (isFollowUp : Bool) (ctx : Option FollowUpCtx) (complexity : Str),
        ∃ l, retrieveRelevantChunksE search query isFollowUp ctx complexity
          = Except.ok l)
    ∧ (∀ (e : Str) (query : Str) (isFollowUp : Bool) (ctx : Option FollowUpCtx)
        (complexity : Str),
        retrieveRelevantChunksE (fun _ _ => Except.error e) query isFollowUp ctx
          complexity = Except.ok []) := by
  refine ⟨fun e => rfl, fun p ex cr fu tk ns rr q => ⟨_, rfl⟩, ?_, fun e q f c x => rfl⟩
  intro search query isFollowUp ctx complexity
  unfold retrieveRelevantChunksE
  cases hb : retrieveRelevantChunksBody search query isFollowUp ctx complexity with
  | ok r => exact ⟨r, rfl⟩
  | error e => exact ⟨[], rfl⟩
